import Mathlib

set_option maxHeartbeats 1000000

/-!
Verification of `.github/scripts/fix-gosec-sarif.py`.

The script reads a JSON (SARIF) document, deletes the key `"fixes"` from every
element of `runs[*].results[*]`, writes the result, and returns the number of
deleted keys; on any processing failure it attempts a verbatim raw copy of the
input file to the output path and re-raises the original exception.  `main`
checks that the hardcoded input file exists, runs the fixer, and translates the
outcome into an exit code.

The embedding below models JSON values as parsed by Python's `json.load`
(dicts are insertion-ordered key/value lists), together with the exact dynamic
semantics of the handful of Python operations the script applies to them:
`dict.get`, iteration (`for x in v`), containment (`'fixes' in v`) and item
deletion (`del v['fixes']`).
-/

/-- JSON values as produced by Python's `json.load`: objects are
insertion-ordered lists of key/value pairs, arrays are lists.  Numbers are
modelled as integers; the script never inspects or computes with numeric
values, so their exact representation is irrelevant to every claim. -/
inductive Json where
  | null : Json
  | bool : Bool → Json
  | num : Int → Json
  | str : String → Json
  | arr : List Json → Json
  | obj : List (String × Json) → Json

/-- The Python exception kinds that the script's operations can raise. -/
inductive PErr where
  | attributeError : PErr
  | typeError : PErr
  | jsonDecodeError : PErr
  | fileNotFound : PErr

/-- First-match key lookup in a key/value list, i.e. Python dict lookup
(a dict produced by `json.load` has at most one entry per key). -/
def lookupKey : List (String × Json) → String → Option Json
  | [], _ => none
  | kv :: rest, k => if kv.1 = k then some kv.2 else lookupKey rest k

/-- Replace the value stored under key `k` (every entry carrying `k`; a dict
produced by `json.load` has at most one), leaving all other entries and the
entry order untouched.  This is how an in-place mutation of the value object
referenced by `d[k]` reads back out of the dict. -/
def updEntries (k : String) (f : Json → Json) : List (String × Json) → List (String × Json)
  | [] => []
  | kv :: rest => (if kv.1 = k then (k, f kv.2) else kv) :: updEntries k f rest

/-- No two entries share a key: always true of dicts built by `json.load`,
since a Python dict has one slot per key. -/
def keysNodup : List (String × Json) → Bool
  | [] => true
  | kv :: rest => !(rest.any (fun kv2 => kv2.1 == kv.1)) && keysNodup rest

/-- `listIsPre n h`: the char list `n` starts the char list `h`. -/
def listIsPre : List Char → List Char → Bool
  | [], _ => true
  | _ :: _, [] => false
  | a :: as, b :: bs => a == b && listIsPre as bs

/-- `hasSubstr n h`: the char list `n` occurs contiguously inside `h`
(Python's `n in h` on strings). -/
def hasSubstr (needle : List Char) : List Char → Bool
  | [] => listIsPre needle []
  | b :: bs => listIsPre needle (b :: bs) || hasSubstr needle bs

/-- Python equality of a JSON value against the string `k`: only a string
with the same contents compares equal (`5 == 'fixes'` is `False`). -/
def pyStrEq (k : String) (v : Json) : Bool :=
  match v with
  | .str s => s == k
  | _ => false

/-- Python iteration `for x in v`: lists yield their elements, strings yield
their characters as one-character strings, dicts yield their keys; every
other value raises `TypeError`. -/
def pyIter (v : Json) : Except PErr (List Json) :=
  match v with
  | .arr xs => .ok xs
  | .str s => .ok (s.toList.map (fun c => Json.str (String.mk [c])))
  | .obj kvs => .ok (kvs.map (fun kv => Json.str kv.1))
  | _ => .error .typeError

/-- Python containment `k in v` for a string literal `k`: key membership on
dicts, substring test on strings, element equality on lists; `TypeError` on
non-container values. -/
def pyContains (v : Json) (k : String) : Except PErr Bool :=
  match v with
  | .obj kvs => .ok (kvs.any (fun kv => kv.1 == k))
  | .str s => .ok (hasSubstr k.toList s.toList)
  | .arr xs => .ok (xs.any (pyStrEq k))
  | _ => .error .typeError

/-- Python `del v[k]` for a string key: removes the key from a dict, raises
`TypeError` on anything else (list indices must be integers; strings do not
support item deletion). -/
def pyDel (v : Json) (k : String) : Except PErr Json :=
  match v with
  | .obj kvs => .ok (.obj (kvs.filter (fun kv => !(kv.1 == k))))
  | _ => .error .typeError

/-- Loop body of the script, lines 34-36:
`if 'fixes' in result: del result['fixes']; fixed_count += 1`.
Returns the (possibly) updated result together with its count contribution. -/
def fixResult (r : Json) : Except PErr (Json × Nat) := do
  let b ← pyContains r "fixes"
  if b then do
    let r' ← pyDel r "fixes"
    .ok (r', 1)
  else
    .ok (r, 0)

/-- The inner loop (line 33) over the elements of a run's `results` list,
rebuilding the list with the mutated result objects and summing the count. -/
def fixList : List Json → Except PErr (List Json × Nat)
  | [] => .ok ([], 0)
  | r :: rs => do
    let (r', n1) ← fixResult r
    let (rs', n2) ← fixList rs
    .ok (r' :: rs', n1 + n2)

/-- The inner loop over the elements yielded by iterating a non-list
`results` value (a string's characters or a dict's keys): such elements are
strings, so the loop can only read them — a successful pass leaves the
document untouched — or raise. -/
def checkResultElems : List Json → Except PErr Nat
  | [] => .ok 0
  | r :: rs => do
    let (_, n1) ← fixResult r
    let n2 ← checkResultElems rs
    .ok (n1 + n2)

/-- The inner loop applied to a non-list `results` value: iterate it and
process the yielded elements (which, being strings, cannot be written back
anywhere — Python mutates no reachable object on this path). -/
def fixResultsOther (v : Json) : Except PErr Nat := do
  let elems ← pyIter v
  checkResultElems elems

/-- Processing of one element of `runs` (lines 33-36):
`for result in run.get('results', []): ...`.  A non-dict run raises
`AttributeError` at `run.get`; an absent `results` key defaults to an empty
list; a present list is rebuilt with its mutated elements; a present
non-list value is iterated read-only. -/
def fixRun1 (run : Json) : Except PErr (Json × Nat) :=
  match run with
  | .obj kvs =>
    match (lookupKey kvs "results").getD (.arr []) with
    | .arr xs => do
      let (xs', n) ← fixList xs
      .ok (.obj (updEntries "results" (fun _ => Json.arr xs') kvs), n)
    | v => do
      let n ← fixResultsOther v
      .ok (.obj kvs, n)
  | _ => .error .attributeError

/-- The outer loop (line 32) over the elements of the `runs` list. -/
def fixRuns : List Json → Except PErr (List Json × Nat)
  | [] => .ok ([], 0)
  | r :: rs => do
    let (r', n1) ← fixRun1 r
    let (rs', n2) ← fixRuns rs
    .ok (r' :: rs', n1 + n2)

/-- The outer loop over the elements yielded by iterating a non-list `runs`
value; such elements are strings, on which `run.get` raises, so a successful
pass iterates over nothing or over nothing that survives `run.get`. -/
def checkRunElems : List Json → Except PErr Nat
  | [] => .ok 0
  | r :: rs => do
    let (_, n1) ← fixRun1 r
    let n2 ← checkRunElems rs
    .ok (n1 + n2)

/-- The outer loop applied to a non-list `runs` value: iterate it and
process the yielded elements (strings, so no reachable object is mutated). -/
def fixRunsOther (v : Json) : Except PErr Nat := do
  let elems ← pyIter v
  checkRunElems elems

/-- Lines 31-36 of the script applied to the parsed document:
`for run in data.get('runs', []): for result in run.get('results', []): ...`,
returning the updated document and the final `fixed_count`.  A non-dict
top-level value raises `AttributeError` at `data.get`. -/
def fixData (data : Json) : Except PErr (Json × Nat) :=
  match data with
  | .obj kvs =>
    match (lookupKey kvs "runs").getD (.arr []) with
    | .arr rs => do
      let (rs', n) ← fixRuns rs
      .ok (.obj (updEntries "runs" (fun _ => Json.arr rs') kvs), n)
    | v => do
      let n ← fixRunsOther v
      .ok (.obj kvs, n)
  | _ => .error .attributeError

/-- The input document of the spec's worked example. -/
def exampleInput : Json :=
  .obj [("runs", .arr [
    .obj [("results", .arr [
      .obj [("ruleId", .str "G101"),
            ("fixes", .arr [.obj [("description", .str "x")]])],
      .obj [("ruleId", .str "G102")]])]])]

/-- The output document of the spec's worked example. -/
def exampleOutput : Json :=
  .obj [("runs", .arr [
    .obj [("results", .arr [
      .obj [("ruleId", .str "G101")],
      .obj [("ruleId", .str "G102")]])]])]

/-- The contents of a file: either text that parses as JSON (abstracted to
the parsed value — `json.dump` re-serializes the value, so the bytes of a
successfully written output are determined by it) or text that `json.load`
rejects. -/
inductive FileContent where
  | jsonDoc : Json → FileContent
  | rawText : String → FileContent

/-- The filesystem visible to the script: a map from paths to contents. -/
def FS : Type := String → Option FileContent

/-- Writing a file, overwriting whatever was at the path. -/
def FS.write (fs : FS) (p : String) (c : FileContent) : FS :=
  fun q => if q = p then some c else fs q

/-- The console messages the script can emit (stderr/stdout status lines). -/
inductive Ev where
  | errFixing : Ev
  | copiedRaw : Ev
  | copyFailed : Ev
  | inputNotFound : Ev
  | okMsg : Nat → Ev
  | failMsg : Ev

/-- Lines 28-29: `open(input_file)` followed by `json.load` — raises
`FileNotFoundError` on a missing path and `JSONDecodeError` on contents that
are not valid JSON. -/
def tryLoad (fs : FS) (p : String) : Except PErr Json :=
  match fs p with
  | some (.jsonDoc v) => .ok v
  | some (.rawText _) => .error .jsonDecodeError
  | none => .error .fileNotFound

/-- The body of the `try` block of `fix_gosec_sarif` up to the write:
load the input and run the fixing loops. -/
def procResult (fs : FS) (inF : String) : Except PErr (Json × Nat) := do
  let v ← tryLoad fs inF
  fixData v

/-- Observable outcome of one call to `fix_gosec_sarif`: the filesystem
after the call, the emitted messages in order, and the returned count or the
(re-raised) exception. -/
structure FixOut where
  fs : FS
  evs : List Ev
  res : Except PErr Nat

/-- `fix_gosec_sarif` (lines 16-51): on success, write the fixed document to
the output path and return the count; on any exception, report it, attempt a
verbatim `shutil.copy` of the input file to the output path (reporting a
distinct message if that copy itself raises — it does when the input is
unreadable), and re-raise the original exception. -/
def fix_gosec_sarif (fs : FS) (inF outF : String) : FixOut :=
  match procResult fs inF with
  | .ok (v', n) => ⟨fs.write outF (.jsonDoc v'), [], .ok n⟩
  | .error e =>
    match fs inF with
    | some c => ⟨fs.write outF c, [.errFixing, .copiedRaw], .error e⟩
    | none => ⟨fs, [.errFixing, .copyFailed], .error e⟩

/-- The script's `main` (lines 54-68; Lean reserves the name `main`): exit 1
if the hardcoded input file is missing (without touching the output),
otherwise run the fixer, report, and exit 0 on success and 1 on failure.
Returns (exit code, final filesystem, messages). -/
def mainFn (fs : FS) : Nat × FS × List Ev :=
  match fs "gosec-raw.sarif" with
  | none => (1, fs, [.inputNotFound])
  | some _ =>
    let o := fix_gosec_sarif fs "gosec-raw.sarif" "gosec.sarif"
    match o.res with
    | .ok n => (0, o.fs, o.evs ++ [.okMsg n])
    | .error _ => (1, o.fs, o.evs ++ [.failMsg])

/-!
Spec-side definitions.  The following definitions transcribe the spec's
declarative description of the transformation (remove exactly the immediate
`"fixes"` key of every element of `runs[*].results[*]`, preserve everything
else including order, count one per result object that had the key), to be
compared against the outcome of the embedded code.
-/

/-- Whether a value is a JSON object. -/
def isObj : Json → Bool
  | .obj _ => true
  | _ => false

/-- Spec: a result object "contains a `fixes` key". -/
def resultHasFixes : Json → Bool
  | .obj kvs => kvs.any (fun kv => kv.1 == "fixes")
  | _ => false

/-- Spec: the count contribution of one result object. -/
def resultCount (r : Json) : Nat :=
  if resultHasFixes r then 1 else 0

/-- Spec: a result object with its immediate `"fixes"` key removed and every
other entry (and the entry order) untouched; non-objects untouched. -/
def specFixResult (r : Json) : Json :=
  match r with
  | .obj kvs => .obj (kvs.filter (fun kv => !(kv.1 == "fixes")))
  | _ => r

/-- Spec: the new value of a `results` key — each element of a sequence
fixed, a non-sequence value untouched. -/
def fixResultsVal (v : Json) : Json :=
  match v with
  | .arr xs => .arr (xs.map specFixResult)
  | v => v

/-- Spec: a run with each element of its `results` sequence fixed and every
other entry untouched; a non-sequence `results` value and non-object runs
untouched. -/
def specFixRun (run : Json) : Json :=
  match run with
  | .obj kvs => .obj (updEntries "results" fixResultsVal kvs)
  | _ => run

/-- Spec: the new value of a `runs` key — each element of a sequence fixed,
a non-sequence value untouched. -/
def fixRunsVal (v : Json) : Json :=
  match v with
  | .arr rs => .arr (rs.map specFixRun)
  | v => v

/-- Spec: the whole document with each element of its `runs` sequence fixed
and everything else untouched. -/
def specFix (data : Json) : Json :=
  match data with
  | .obj kvs => .obj (updEntries "runs" fixRunsVal kvs)
  | _ => data

/-- Spec: the number of result objects of one run that contain a `"fixes"`
key. -/
def specRunCount (run : Json) : Nat :=
  match run with
  | .obj kvs =>
    match (lookupKey kvs "results").getD (.arr []) with
    | .arr xs => (xs.map resultCount).sum
    | _ => 0
  | _ => 0

/-- Spec: the number of result objects across all runs that contain a
`"fixes"` key (the *k* of the spec's testable properties). -/
def specCountFixes (data : Json) : Nat :=
  match data with
  | .obj kvs =>
    match (lookupKey kvs "runs").getD (.arr []) with
    | .arr rs => (rs.map specRunCount).sum
    | _ => 0
  | _ => 0

/-- Every object reachable by the script's two-level walk has
duplicate-free keys.  Python dicts have one slot per key, so every document
produced by `json.load` satisfies this; it is stated only at the two levels
the script updates. -/
def runKeysOK (run : Json) : Bool :=
  match run with
  | .obj kvs => keysNodup kvs
  | _ => true

/-- See `runKeysOK`: duplicate-free keys at the top level and on every run
object, as is the case for every document produced by `json.load`. -/
def docKeysOK (data : Json) : Bool :=
  match data with
  | .obj kvs => keysNodup kvs &&
    (match (lookupKey kvs "runs").getD (.arr []) with
     | .arr rs => rs.all runKeysOK
     | _ => true)
  | _ => true

/-- A run object of the shape described in spec §3: an object (with the
duplicate-free keys `json.load` guarantees) whose `results` key, if present,
holds a sequence of result objects. -/
def runShaped (run : Json) : Bool :=
  match run with
  | .obj kvs => keysNodup kvs &&
    (match lookupKey kvs "results" with
     | some (.arr xs) => xs.all isObj
     | some _ => false
     | none => true)
  | _ => false

/-- A SARIF document of the shape described in spec §3: a top-level object
whose `runs` key, if present, holds a sequence of run objects. -/
def SarifShaped (data : Json) : Bool :=
  match data with
  | .obj kvs => keysNodup kvs &&
    (match lookupKey kvs "runs" with
     | some (.arr rs) => rs.all runShaped
     | some _ => false
     | none => true)
  | _ => false

/-- Entries of an object other than those carrying the key `k` (used to state
frame conditions); empty for non-objects. -/
def entriesExcept (v : Json) (k : String) : List (String × Json) :=
  match v with
  | .obj kvs => kvs.filter (fun kv => !(kv.1 == k))
  | _ => []

/-- The `runs` sequence of a document, when it is present and a sequence. -/
def runsArr (data : Json) : List Json :=
  match data with
  | .obj kvs =>
    match lookupKey kvs "runs" with
    | some (.arr rs) => rs
    | _ => []
  | _ => []

/-- The `results` sequence of a run, when it is present and a sequence. -/
def resultsArr (run : Json) : List Json :=
  match run with
  | .obj kvs =>
    match lookupKey kvs "results" with
    | some (.arr xs) => xs
    | _ => []
  | _ => []

/-- Values on which Python's `for` raises `TypeError` immediately. -/
def nonIterable : Json → Bool
  | .null => true
  | .bool _ => true
  | .num _ => true
  | _ => false

/-! ### Reduction lemmas for the `Except` monad and the key/value helpers -/

@[simp] theorem perr_bind_ok {α β : Type} (a : α) (f : α → Except PErr β) :
    (Bind.bind (Except.ok a) f : Except PErr β) = f a := rfl

@[simp] theorem perr_bind_error {α β : Type} (e : PErr) (f : α → Except PErr β) :
    (Bind.bind (Except.error e) f : Except PErr β) = Except.error e := rfl

theorem lookupKey_updEntries (k : String) (f : Json → Json) (kvs : List (String × Json)) :
    lookupKey (updEntries k f kvs) k = (lookupKey kvs k).map f := by
  induction kvs with
  | nil => rfl
  | cons kv rest ih =>
    by_cases h : kv.1 = k
    · simp [updEntries, lookupKey, h]
    · simp [updEntries, lookupKey, h, ih]

theorem updEntries_of_lookup_none (k : String) (f : Json → Json)
    (kvs : List (String × Json)) (h : lookupKey kvs k = none) :
    updEntries k f kvs = kvs := by
  induction kvs with
  | nil => rfl
  | cons kv rest ih =>
    by_cases hk : kv.1 = k
    · simp [lookupKey, hk] at h
    · simp only [lookupKey, if_neg hk] at h
      simp [updEntries, hk, ih h]

theorem updEntries_updEntries (k : String) (w : Json) (g : Json → Json)
    (kvs : List (String × Json)) :
    updEntries k (fun _ => w) (updEntries k g kvs) = updEntries k (fun _ => w) kvs := by
  induction kvs with
  | nil => rfl
  | cons kv rest ih =>
    by_cases hk : kv.1 = k
    · simp [updEntries, hk, ih]
    · simp [updEntries, hk, ih]

theorem updEntries_congr (k : String) (f g : Json → Json) (kvs : List (String × Json))
    (h : ∀ kv ∈ kvs, kv.1 = k → f kv.2 = g kv.2) :
    updEntries k f kvs = updEntries k g kvs := by
  induction kvs with
  | nil => rfl
  | cons kv rest ih =>
    have hrest : ∀ kv2 ∈ rest, kv2.1 = k → f kv2.2 = g kv2.2 :=
      fun kv2 hm hk2 => h kv2 (List.mem_cons_of_mem _ hm) hk2
    by_cases hk : kv.1 = k
    · simp [updEntries, hk, h kv (List.mem_cons_self _ _) hk, ih hrest]
    · simp [updEntries, hk, ih hrest]

theorem updEntries_id (k : String) (kvs : List (String × Json)) :
    updEntries k (fun v => v) kvs = kvs := by
  induction kvs with
  | nil => rfl
  | cons kv rest ih =>
    obtain ⟨a, b⟩ := kv
    by_cases hk : a = k
    · subst hk
      simp [updEntries, ih]
    · simp [updEntries, hk, ih]

theorem nodup_lookup_unique (kvs : List (String × Json)) (k : String) (v : Json)
    (hn : keysNodup kvs = true) (hl : lookupKey kvs k = some v) :
    ∀ kv ∈ kvs, kv.1 = k → kv.2 = v := by
  induction kvs with
  | nil => intro kv hm; simp at hm
  | cons kv0 rest ih =>
    simp only [keysNodup, Bool.and_eq_true, Bool.not_eq_true'] at hn
    obtain ⟨hnot, hrest⟩ := hn
    intro kv hm hk
    rcases List.mem_cons.mp hm with hm | hm
    · subst hm
      rw [lookupKey, if_pos hk] at hl
      exact Option.some_injective _ hl
    · by_cases h0 : kv0.1 = k
      · exfalso
        have : rest.any (fun kv2 => kv2.1 == kv0.1) = true := by
          refine List.any_eq_true.mpr ⟨kv, hm, ?_⟩
          simp [hk, h0]
        simp [this] at hnot
      · rw [lookupKey, if_neg h0] at hl
        exact ih hrest hl kv hm hk

theorem updEntries_const_of_nodup (kvs : List (String × Json)) (k : String) (v : Json)
    (f : Json → Json) (hn : keysNodup kvs = true) (hl : lookupKey kvs k = some v) :
    updEntries k (fun _ => f v) kvs = updEntries k f kvs :=
  updEntries_congr k _ f kvs fun kv hm hk => by
    rw [nodup_lookup_unique kvs k v hn hl kv hm hk]

theorem filter_updEntries (k : String) (f : Json → Json) (kvs : List (String × Json)) :
    (updEntries k f kvs).filter (fun kv => !(kv.1 == k)) =
      kvs.filter (fun kv => !(kv.1 == k)) := by
  induction kvs with
  | nil => rfl
  | cons kv rest ih =>
    by_cases hk : kv.1 = k
    · simp [updEntries, hk, List.filter, ih]
    · simp only [updEntries, if_neg hk]
      simp [List.filter_cons, hk, ih]

theorem any_key_filter (k : String) (kvs : List (String × Json)) :
    (kvs.filter (fun kv => !(kv.1 == k))).any (fun kv => kv.1 == k) = false := by
  induction kvs with
  | nil => rfl
  | cons kv rest ih =>
    by_cases hk : kv.1 = k
    · simp [List.filter_cons, hk, ih]
    · simp [List.filter_cons, hk, ih]

theorem filter_of_any_false (k : String) (kvs : List (String × Json))
    (h : kvs.any (fun kv => kv.1 == k) = false) :
    kvs.filter (fun kv => !(kv.1 == k)) = kvs := by
  induction kvs with
  | nil => rfl
  | cons kv rest ih =>
    simp only [List.any_cons, Bool.or_eq_false_iff] at h
    simp [List.filter_cons, h.1, ih h.2]

theorem forall2_map_self {R : Json → Json → Prop} (f : Json → Json) (l : List Json)
    (h : ∀ x ∈ l, R (f x) x) : List.Forall₂ R (l.map f) l := by
  induction l with
  | nil => exact List.Forall₂.nil
  | cons x xs ih =>
    exact List.Forall₂.cons (h x (List.mem_cons_self _ _))
      (ih fun y hy => h y (List.mem_cons_of_mem _ hy))

/-! ### Characterization of successful runs of the fixing loops -/

theorem fixResult_ok (r : Json) (p : Json × Nat) (h : fixResult r = .ok p) :
    p = (specFixResult r, resultCount r) := by
  obtain ⟨p1, p2⟩ := p
  cases r with
  | null => simp [fixResult, pyContains] at h
  | bool b => simp [fixResult, pyContains] at h
  | num m => simp [fixResult, pyContains] at h
  | str s =>
    simp only [fixResult, pyContains, perr_bind_ok] at h
    split at h
    · simp [pyDel] at h
    · simp only [Except.ok.injEq, Prod.mk.injEq] at h
      obtain ⟨rfl, rfl⟩ := h
      simp [specFixResult, resultCount, resultHasFixes]
  | arr xs =>
    simp only [fixResult, pyContains, perr_bind_ok] at h
    split at h
    · simp [pyDel] at h
    · simp only [Except.ok.injEq, Prod.mk.injEq] at h
      obtain ⟨rfl, rfl⟩ := h
      simp [specFixResult, resultCount, resultHasFixes]
  | obj kvs =>
    simp only [fixResult, pyContains, perr_bind_ok] at h
    split at h
    case isTrue hb =>
      simp only [pyDel, perr_bind_ok, Except.ok.injEq, Prod.mk.injEq] at h
      obtain ⟨rfl, rfl⟩ := h
      simp [specFixResult, resultCount, resultHasFixes, hb]
    case isFalse hb =>
      simp only [Bool.not_eq_true] at hb
      simp only [Except.ok.injEq, Prod.mk.injEq] at h
      obtain ⟨rfl, rfl⟩ := h
      simp [specFixResult, resultCount, resultHasFixes, hb,
        filter_of_any_false _ _ hb]

theorem fixList_ok (xs : List Json) :
    ∀ q, fixList xs = .ok q → q = (xs.map specFixResult, (xs.map resultCount).sum) := by
  induction xs with
  | nil =>
    intro q h
    simp [fixList] at h
    simp [← h]
  | cons r rs ih =>
    intro q h
    obtain ⟨q1, q2⟩ := q
    cases hr : fixResult r with
    | error e => simp [fixList, hr] at h
    | ok p =>
      obtain ⟨r', n1⟩ := p
      cases hl : fixList rs with
      | error e => simp [fixList, hr, hl] at h
      | ok q' =>
        obtain ⟨rs', n2⟩ := q'
        simp [fixList, hr, hl] at h
        have h1 := fixResult_ok r _ hr
        have h2 := ih _ hl
        simp only [Prod.mk.injEq] at h1 h2
        simp [← h.1, ← h.2, h1.1, h1.2, h2.1, h2.2]

theorem fixResult_str (s : String) (p : Json × Nat) (h : fixResult (.str s) = .ok p) :
    p = (.str s, 0) := by
  have hp := fixResult_ok _ _ h
  simpa [specFixResult, resultCount, resultHasFixes] using hp

theorem checkResultElems_strings (es : List Json) :
    ∀ n, (∀ e ∈ es, ∃ s, e = Json.str s) → checkResultElems es = .ok n → n = 0 := by
  induction es with
  | nil =>
    intro n _ h
    simp [checkResultElems] at h
    omega
  | cons e es ih =>
    intro n hs h
    obtain ⟨s, rfl⟩ := hs _ (List.mem_cons_self _ _)
    cases hr : fixResult (.str s) with
    | error e2 => simp [checkResultElems, hr] at h
    | ok p =>
      have hp := fixResult_str s p hr
      subst hp
      cases hc : checkResultElems es with
      | error e2 => simp [checkResultElems, hr, hc] at h
      | ok m =>
        simp [checkResultElems, hr, hc] at h
        have := ih m (fun e he => hs e (List.mem_cons_of_mem _ he)) hc
        omega

theorem fixRun1_str (s : String) : fixRun1 (Json.str s) = .error .attributeError := rfl

theorem checkRunElems_strings (es : List Json) :
    ∀ n, (∀ e ∈ es, ∃ s, e = Json.str s) → checkRunElems es = .ok n → es = [] ∧ n = 0 := by
  induction es with
  | nil =>
    intro n _ h
    refine ⟨rfl, ?_⟩
    simp [checkRunElems] at h
    omega
  | cons e es _ =>
    intro n hs h
    obtain ⟨s, rfl⟩ := hs _ (List.mem_cons_self _ _)
    simp [checkRunElems, fixRun1_str] at h

theorem fixResultsOther_ok (v : Json) (harr : ∀ xs, v ≠ Json.arr xs) :
    ∀ n, fixResultsOther v = .ok n → n = 0 := by
  intro n h
  cases v with
  | arr xs => exact absurd rfl (harr xs)
  | null => simp [fixResultsOther, pyIter] at h
  | bool b => simp [fixResultsOther, pyIter] at h
  | num m => simp [fixResultsOther, pyIter] at h
  | str s =>
    have h' : checkResultElems (s.toList.map fun c => Json.str (String.mk [c])) = .ok n := by
      simpa [fixResultsOther, pyIter] using h
    refine checkResultElems_strings _ n ?_ h'
    intro e he
    obtain ⟨c, _, rfl⟩ := List.mem_map.mp he
    exact ⟨_, rfl⟩
  | obj kvs2 =>
    have h' : checkResultElems (kvs2.map fun kv => Json.str kv.1) = .ok n := by
      simpa [fixResultsOther, pyIter] using h
    refine checkResultElems_strings _ n ?_ h'
    intro e he
    obtain ⟨kv, _, rfl⟩ := List.mem_map.mp he
    exact ⟨_, rfl⟩

theorem fixRun1_other (kvs : List (String × Json)) (v : Json)
    (hn : keysNodup kvs = true) (hl : lookupKey kvs "results" = some v)
    (harr : ∀ xs, v ≠ Json.arr xs) (hveq : fixResultsVal v = v)
    (hbranch : fixRun1 (.obj kvs) = do
      let n ← fixResultsOther v
      Except.ok (Json.obj kvs, n)) :
    ∀ p, fixRun1 (.obj kvs) = .ok p →
      p = (specFixRun (.obj kvs), specRunCount (.obj kvs)) ∧ specRunCount (.obj kvs) = 0 := by
  have hid : updEntries "results" fixResultsVal kvs = kvs := by
    have hc := updEntries_congr "results" fixResultsVal (fun w => w) kvs ?_
    · rw [hc, updEntries_id]
    · intro kv hm hk
      rw [nodup_lookup_unique kvs "results" v hn hl kv hm hk]
      exact hveq
  have hcnt : specRunCount (.obj kvs) = 0 := by
    cases v with
    | arr xs => exact absurd rfl (harr xs)
    | null => simp [specRunCount, hl]
    | bool b => simp [specRunCount, hl]
    | num m => simp [specRunCount, hl]
    | str s => simp [specRunCount, hl]
    | obj kvs2 => simp [specRunCount, hl]
  intro p h
  rw [hbranch] at h
  obtain ⟨p1, p2⟩ := p
  cases ho : fixResultsOther v with
  | error e2 => rw [ho] at h; simp at h
  | ok n =>
    rw [ho] at h
    simp only [perr_bind_ok, Except.ok.injEq, Prod.mk.injEq] at h
    obtain ⟨rfl, rfl⟩ := h
    have hn0 : n = 0 := fixResultsOther_ok v harr n ho
    refine ⟨?_, hcnt⟩
    simp [specFixRun, hid, hcnt, hn0]

theorem fixRun1_ok (run : Json) (p : Json × Nat) (hn : runKeysOK run = true)
    (h : fixRun1 run = .ok p) : p = (specFixRun run, specRunCount run) := by
  cases run with
  | null => simp [fixRun1] at h
  | bool b => simp [fixRun1] at h
  | num m => simp [fixRun1] at h
  | str s => simp [fixRun1] at h
  | arr xs => simp [fixRun1] at h
  | obj kvs =>
    simp only [runKeysOK] at hn
    obtain ⟨p1, p2⟩ := p
    cases hl : lookupKey kvs "results" with
    | none =>
      simp only [fixRun1, hl, Option.getD_none, fixList, perr_bind_ok,
        Except.ok.injEq, Prod.mk.injEq] at h
      obtain ⟨rfl, rfl⟩ := h
      have e1 := updEntries_of_lookup_none "results" (fun _ => Json.arr []) kvs hl
      have e2 := updEntries_of_lookup_none "results" fixResultsVal kvs hl
      simp [specFixRun, specRunCount, hl, e1, e2]
    | some v =>
      cases v with
      | arr xs =>
        cases hfl : fixList xs with
        | error e => simp [fixRun1, hl, hfl] at h
        | ok q =>
          obtain ⟨xs', n⟩ := q
          have hq := fixList_ok xs _ hfl
          simp only [Prod.mk.injEq] at hq
          obtain ⟨hq1, hq2⟩ := hq
          simp only [fixRun1, hl, Option.getD_some, hfl, perr_bind_ok,
            Except.ok.injEq, Prod.mk.injEq] at h
          obtain ⟨rfl, rfl⟩ := h
          have e1 : updEntries "results" (fun _ => fixResultsVal (Json.arr xs)) kvs
              = updEntries "results" fixResultsVal kvs :=
            updEntries_const_of_nodup kvs "results" (Json.arr xs) fixResultsVal hn hl
          simp only [fixResultsVal] at e1
          simp [specFixRun, specRunCount, hl, hq1, hq2, e1]
      | null =>
        exact (fixRun1_other kvs _ hn hl (fun xs hx => Json.noConfusion hx) rfl
          (by simp [fixRun1, hl]) _ h).1
      | bool b =>
        exact (fixRun1_other kvs _ hn hl (fun xs hx => Json.noConfusion hx) rfl
          (by simp [fixRun1, hl]) _ h).1
      | num m =>
        exact (fixRun1_other kvs _ hn hl (fun xs hx => Json.noConfusion hx) rfl
          (by simp [fixRun1, hl]) _ h).1
      | str s =>
        exact (fixRun1_other kvs _ hn hl (fun xs hx => Json.noConfusion hx) rfl
          (by simp [fixRun1, hl]) _ h).1
      | obj kvs2 =>
        exact (fixRun1_other kvs _ hn hl (fun xs hx => Json.noConfusion hx) rfl
          (by simp [fixRun1, hl]) _ h).1

theorem fixRuns_ok (rs : List Json) :
    ∀ q, rs.all runKeysOK = true → fixRuns rs = .ok q →
      q = (rs.map specFixRun, (rs.map specRunCount).sum) := by
  induction rs with
  | nil =>
    intro q _ h
    simp [fixRuns] at h
    simp [← h]
  | cons r rest ih =>
    intro q hall h
    simp only [List.all_cons, Bool.and_eq_true] at hall
    obtain ⟨q1, q2⟩ := q
    cases hr : fixRun1 r with
    | error e => simp [fixRuns, hr] at h
    | ok p =>
      obtain ⟨r', n1⟩ := p
      cases hl : fixRuns rest with
      | error e => simp [fixRuns, hr, hl] at h
      | ok q' =>
        obtain ⟨rs', n2⟩ := q'
        simp [fixRuns, hr, hl] at h
        have h1 := fixRun1_ok r _ hall.1 hr
        have h2 := ih _ hall.2 hl
        simp only [Prod.mk.injEq] at h1 h2
        simp [← h.1, ← h.2, h1.1, h1.2, h2.1, h2.2]

theorem fixRunsOther_ok (v : Json) (harr : ∀ xs, v ≠ Json.arr xs) :
    ∀ n, fixRunsOther v = .ok n → n = 0 := by
  intro n h
  cases v with
  | arr xs => exact absurd rfl (harr xs)
  | null => simp [fixRunsOther, pyIter] at h
  | bool b => simp [fixRunsOther, pyIter] at h
  | num m => simp [fixRunsOther, pyIter] at h
  | str s =>
    have h' : checkRunElems (s.toList.map fun c => Json.str (String.mk [c])) = .ok n := by
      simpa [fixRunsOther, pyIter] using h
    refine (checkRunElems_strings _ n ?_ h').2
    intro e he
    obtain ⟨c, _, rfl⟩ := List.mem_map.mp he
    exact ⟨_, rfl⟩
  | obj kvs2 =>
    have h' : checkRunElems (kvs2.map fun kv => Json.str kv.1) = .ok n := by
      simpa [fixRunsOther, pyIter] using h
    refine (checkRunElems_strings _ n ?_ h').2
    intro e he
    obtain ⟨kv, _, rfl⟩ := List.mem_map.mp he
    exact ⟨_, rfl⟩

theorem fixData_other (kvs : List (String × Json)) (v : Json)
    (hn : keysNodup kvs = true) (hl : lookupKey kvs "runs" = some v)
    (harr : ∀ xs, v ≠ Json.arr xs) (hveq : fixRunsVal v = v)
    (hbranch : fixData (.obj kvs) = do
      let n ← fixRunsOther v
      Except.ok (Json.obj kvs, n)) :
    ∀ p, fixData (.obj kvs) = .ok p →
      p = (specFix (.obj kvs), specCountFixes (.obj kvs)) ∧
        specCountFixes (.obj kvs) = 0 := by
  have hid : updEntries "runs" fixRunsVal kvs = kvs := by
    have hc := updEntries_congr "runs" fixRunsVal (fun w => w) kvs ?_
    · rw [hc, updEntries_id]
    · intro kv hm hk
      rw [nodup_lookup_unique kvs "runs" v hn hl kv hm hk]
      exact hveq
  have hcnt : specCountFixes (.obj kvs) = 0 := by
    cases v with
    | arr xs => exact absurd rfl (harr xs)
    | null => simp [specCountFixes, hl]
    | bool b => simp [specCountFixes, hl]
    | num m => simp [specCountFixes, hl]
    | str s => simp [specCountFixes, hl]
    | obj kvs2 => simp [specCountFixes, hl]
  intro p h
  rw [hbranch] at h
  obtain ⟨p1, p2⟩ := p
  cases ho : fixRunsOther v with
  | error e2 => rw [ho] at h; simp at h
  | ok n =>
    rw [ho] at h
    simp only [perr_bind_ok, Except.ok.injEq, Prod.mk.injEq] at h
    obtain ⟨rfl, rfl⟩ := h
    have hn0 : n = 0 := fixRunsOther_ok v harr n ho
    refine ⟨?_, hcnt⟩
    simp [specFix, hid, hcnt, hn0]

theorem fixData_ok_spec (data : Json) (d' : Json) (n : Nat)
    (hk : docKeysOK data = true) (h : fixData data = .ok (d', n)) :
    d' = specFix data ∧ n = specCountFixes data := by
  cases data with
  | null => simp [fixData] at h
  | bool b => simp [fixData] at h
  | num m => simp [fixData] at h
  | str s => simp [fixData] at h
  | arr xs => simp [fixData] at h
  | obj kvs =>
    simp only [docKeysOK, Bool.and_eq_true] at hk
    obtain ⟨hn, hk2⟩ := hk
    cases hl : lookupKey kvs "runs" with
    | none =>
      simp only [fixData, hl, Option.getD_none, fixRuns, perr_bind_ok,
        Except.ok.injEq, Prod.mk.injEq] at h
      obtain ⟨rfl, rfl⟩ := h
      have e1 := updEntries_of_lookup_none "runs" (fun _ => Json.arr []) kvs hl
      have e2 := updEntries_of_lookup_none "runs" fixRunsVal kvs hl
      constructor
      · simp [specFix, e1, e2]
      · simp [specCountFixes, hl]
    | some v =>
      rw [hl] at hk2
      cases v with
      | arr rs =>
        simp only [Option.getD_some] at hk2
        cases hfl : fixRuns rs with
        | error e => simp [fixData, hl, hfl] at h
        | ok q =>
          obtain ⟨rs', m⟩ := q
          have hq := fixRuns_ok rs _ hk2 hfl
          simp only [Prod.mk.injEq] at hq
          obtain ⟨hq1, hq2⟩ := hq
          simp only [fixData, hl, Option.getD_some, hfl, perr_bind_ok,
            Except.ok.injEq, Prod.mk.injEq] at h
          obtain ⟨rfl, rfl⟩ := h
          have e1 : updEntries "runs" (fun _ => fixRunsVal (Json.arr rs)) kvs
              = updEntries "runs" fixRunsVal kvs :=
            updEntries_const_of_nodup kvs "runs" (Json.arr rs) fixRunsVal hn hl
          simp only [fixRunsVal] at e1
          constructor
          · simp [specFix, hq1, e1]
          · simp [specCountFixes, hl, hq2]
      | null =>
        have := fixData_other kvs _ hn hl (fun xs hx => Json.noConfusion hx) rfl
          (by simp [fixData, hl]) _ h
        simpa [Prod.mk.injEq] using this.1
      | bool b =>
        have := fixData_other kvs _ hn hl (fun xs hx => Json.noConfusion hx) rfl
          (by simp [fixData, hl]) _ h
        simpa [Prod.mk.injEq] using this.1
      | num m =>
        have := fixData_other kvs _ hn hl (fun xs hx => Json.noConfusion hx) rfl
          (by simp [fixData, hl]) _ h
        simpa [Prod.mk.injEq] using this.1
      | str s =>
        have := fixData_other kvs _ hn hl (fun xs hx => Json.noConfusion hx) rfl
          (by simp [fixData, hl]) _ h
        simpa [Prod.mk.injEq] using this.1
      | obj kvs2 =>
        have := fixData_other kvs _ hn hl (fun xs hx => Json.noConfusion hx) rfl
          (by simp [fixData, hl]) _ h
        simpa [Prod.mk.injEq] using this.1

/-! ### Success on documents of the spec's SARIF shape -/

theorem fixResult_obj (kvs : List (String × Json)) :
    fixResult (.obj kvs) = .ok (specFixResult (.obj kvs), resultCount (.obj kvs)) := by
  by_cases hb : kvs.any (fun kv => kv.1 == "fixes") = true
  · simp [fixResult, pyContains, pyDel, hb, specFixResult, resultCount, resultHasFixes]
  · simp only [Bool.not_eq_true] at hb
    simp [fixResult, pyContains, hb, specFixResult, resultCount, resultHasFixes,
      filter_of_any_false _ _ hb]

theorem fixList_objs (xs : List Json) (hx : xs.all isObj = true) :
    fixList xs = .ok (xs.map specFixResult, (xs.map resultCount).sum) := by
  induction xs with
  | nil => rfl
  | cons r rs ih =>
    simp only [List.all_cons, Bool.and_eq_true] at hx
    obtain ⟨h1, h2⟩ := hx
    cases r with
    | obj kvs => simp [fixList, fixResult_obj kvs, ih h2]
    | null => simp [isObj] at h1
    | bool b => simp [isObj] at h1
    | num m => simp [isObj] at h1
    | str s => simp [isObj] at h1
    | arr ys => simp [isObj] at h1

theorem fixRun1_shaped (run : Json) (hs : runShaped run = true) :
    fixRun1 run = .ok (specFixRun run, specRunCount run) := by
  cases run with
  | null => simp [runShaped] at hs
  | bool b => simp [runShaped] at hs
  | num m => simp [runShaped] at hs
  | str s => simp [runShaped] at hs
  | arr xs => simp [runShaped] at hs
  | obj kvs =>
    simp only [runShaped, Bool.and_eq_true] at hs
    obtain ⟨hn, hs2⟩ := hs
    cases hl : lookupKey kvs "results" with
    | none =>
      have e1 := updEntries_of_lookup_none "results" (fun _ => Json.arr []) kvs hl
      have e2 := updEntries_of_lookup_none "results" fixResultsVal kvs hl
      simp [fixRun1, hl, fixList, specFixRun, specRunCount, e1, e2]
    | some v =>
      rw [hl] at hs2
      cases v with
      | arr xs =>
        simp only at hs2
        have e1 : updEntries "results" (fun _ => fixResultsVal (Json.arr xs)) kvs
            = updEntries "results" fixResultsVal kvs :=
          updEntries_const_of_nodup kvs "results" (Json.arr xs) fixResultsVal hn hl
        simp only [fixResultsVal] at e1
        simp [fixRun1, hl, fixList_objs xs hs2, specFixRun, specRunCount, e1]
      | null => simp at hs2
      | bool b => simp at hs2
      | num m => simp at hs2
      | str s => simp at hs2
      | obj kvs2 => simp at hs2

theorem fixRuns_shaped (rs : List Json) (hs : rs.all runShaped = true) :
    fixRuns rs = .ok (rs.map specFixRun, (rs.map specRunCount).sum) := by
  induction rs with
  | nil => rfl
  | cons r rest ih =>
    simp only [List.all_cons, Bool.and_eq_true] at hs
    simp [fixRuns, fixRun1_shaped r hs.1, ih hs.2]

theorem fixData_shaped (data : Json) (hs : SarifShaped data = true) :
    fixData data = .ok (specFix data, specCountFixes data) := by
  cases data with
  | null => simp [SarifShaped] at hs
  | bool b => simp [SarifShaped] at hs
  | num m => simp [SarifShaped] at hs
  | str s => simp [SarifShaped] at hs
  | arr xs => simp [SarifShaped] at hs
  | obj kvs =>
    simp only [SarifShaped, Bool.and_eq_true] at hs
    obtain ⟨hn, hs2⟩ := hs
    cases hl : lookupKey kvs "runs" with
    | none =>
      have e1 := updEntries_of_lookup_none "runs" (fun _ => Json.arr []) kvs hl
      have e2 := updEntries_of_lookup_none "runs" fixRunsVal kvs hl
      simp [fixData, hl, fixRuns, specFix, specCountFixes, e1, e2]
    | some v =>
      rw [hl] at hs2
      cases v with
      | arr rs =>
        simp only at hs2
        have e1 : updEntries "runs" (fun _ => fixRunsVal (Json.arr rs)) kvs
            = updEntries "runs" fixRunsVal kvs :=
          updEntries_const_of_nodup kvs "runs" (Json.arr rs) fixRunsVal hn hl
        simp only [fixRunsVal] at e1
        simp [fixData, hl, fixRuns_shaped rs hs2, specFix, specCountFixes, e1]
      | null => simp at hs2
      | bool b => simp at hs2
      | num m => simp at hs2
      | str s => simp at hs2
      | obj kvs2 => simp at hs2

/-- Shape implies the (weaker) duplicate-free-keys condition. -/
theorem docKeysOK_of_shaped (data : Json) (hs : SarifShaped data = true) :
    docKeysOK data = true := by
  cases data with
  | null => rfl
  | bool b => rfl
  | num m => rfl
  | str s => rfl
  | arr xs => rfl
  | obj kvs =>
    simp only [SarifShaped, Bool.and_eq_true] at hs
    obtain ⟨hn, hs2⟩ := hs
    simp only [docKeysOK, Bool.and_eq_true]
    refine ⟨hn, ?_⟩
    cases hl : lookupKey kvs "runs" with
    | none => simp
    | some v =>
      rw [hl] at hs2
      cases v with
      | arr rs =>
        simp only at hs2
        simp only [Option.getD_some]
        refine List.all_eq_true.mpr ?_
        intro run hm
        have hr := List.all_eq_true.mp hs2 run hm
        cases run with
        | obj kvs2 =>
          simp only [runShaped, Bool.and_eq_true] at hr
          simpa [runKeysOK] using hr.1
        | null => simp [runShaped] at hr
        | bool b => simp [runShaped] at hr
        | num m => simp [runShaped] at hr
        | str s => simp [runShaped] at hr
        | arr ys => simp [runShaped] at hr
      | null => simp at hs2
      | bool b => simp at hs2
      | num m => simp at hs2
      | str s => simp at hs2
      | obj kvs2 => simp at hs2

/-! ### The fixed output contains no result object with a `fixes` key -/

theorem resultCount_specFixResult (r : Json) : resultCount (specFixResult r) = 0 := by
  cases r with
  | obj kvs =>
    simp [specFixResult, resultCount, resultHasFixes, any_key_filter]
  | null => rfl
  | bool b => rfl
  | num m => rfl
  | str s => rfl
  | arr xs => rfl

theorem specRunCount_specFixRun (run : Json) : specRunCount (specFixRun run) = 0 := by
  cases run with
  | obj kvs =>
    simp only [specFixRun, specRunCount, lookupKey_updEntries]
    cases hl : lookupKey kvs "results" with
    | none => simp
    | some v =>
      cases v with
      | arr xs =>
        simp [fixResultsVal, List.map_map]
        refine List.sum_eq_zero ?_
        intro x hx
        obtain ⟨r, _, rfl⟩ := List.mem_map.mp hx
        exact resultCount_specFixResult r
      | null => simp [fixResultsVal]
      | bool b => simp [fixResultsVal]
      | num m => simp [fixResultsVal]
      | str s => simp [fixResultsVal]
      | obj kvs2 => simp [fixResultsVal]
  | null => rfl
  | bool b => rfl
  | num m => rfl
  | str s => rfl
  | arr xs => rfl

theorem specCountFixes_specFix (data : Json) : specCountFixes (specFix data) = 0 := by
  cases data with
  | obj kvs =>
    simp only [specFix, specCountFixes, lookupKey_updEntries]
    cases hl : lookupKey kvs "runs" with
    | none => simp
    | some v =>
      cases v with
      | arr rs =>
        simp [fixRunsVal, List.map_map]
        refine List.sum_eq_zero ?_
        intro x hx
        obtain ⟨r, _, rfl⟩ := List.mem_map.mp hx
        exact specRunCount_specFixRun r
      | null => simp [fixRunsVal]
      | bool b => simp [fixRunsVal]
      | num m => simp [fixRunsVal]
      | str s => simp [fixRunsVal]
      | obj kvs2 => simp [fixRunsVal]
  | null => rfl
  | bool b => rfl
  | num m => rfl
  | str s => rfl
  | arr xs => rfl

/-! ### Idempotence of the fixing pass -/

theorem fixResult_idem (r r' : Json) (n : Nat) (h : fixResult r = .ok (r', n)) :
    fixResult r' = .ok (r', 0) := by
  cases r with
  | null => simp [fixResult, pyContains] at h
  | bool b => simp [fixResult, pyContains] at h
  | num m => simp [fixResult, pyContains] at h
  | str s =>
    simp only [fixResult, pyContains, perr_bind_ok] at h
    split at h
    · simp [pyDel] at h
    case isFalse hb =>
      simp only [Except.ok.injEq, Prod.mk.injEq] at h
      obtain ⟨rfl, rfl⟩ := h
      simp only [fixResult, pyContains, perr_bind_ok]
      rw [if_neg hb]
  | arr xs =>
    simp only [fixResult, pyContains, perr_bind_ok] at h
    split at h
    · simp [pyDel] at h
    case isFalse hb =>
      simp only [Except.ok.injEq, Prod.mk.injEq] at h
      obtain ⟨rfl, rfl⟩ := h
      simp only [fixResult, pyContains, perr_bind_ok]
      rw [if_neg hb]
  | obj kvs =>
    simp only [fixResult, pyContains, perr_bind_ok] at h
    split at h
    case isTrue hb =>
      simp only [pyDel, perr_bind_ok, Except.ok.injEq, Prod.mk.injEq] at h
      obtain ⟨rfl, rfl⟩ := h
      simp [fixResult, pyContains, any_key_filter]
    case isFalse hb =>
      simp only [Except.ok.injEq, Prod.mk.injEq] at h
      obtain ⟨rfl, rfl⟩ := h
      simp only [fixResult, pyContains, perr_bind_ok]
      rw [if_neg hb]

theorem fixList_idem (xs : List Json) :
    ∀ xs' n, fixList xs = .ok (xs', n) → fixList xs' = .ok (xs', 0) := by
  induction xs with
  | nil =>
    intro xs' n h
    simp only [fixList, Except.ok.injEq, Prod.mk.injEq] at h
    obtain ⟨rfl, rfl⟩ := h
    rfl
  | cons r rs ih =>
    intro xs' n h
    cases hr : fixResult r with
    | error e => simp [fixList, hr] at h
    | ok p =>
      obtain ⟨r', n1⟩ := p
      cases hl : fixList rs with
      | error e => simp [fixList, hr, hl] at h
      | ok q' =>
        obtain ⟨rs', n2⟩ := q'
        simp only [fixList, hr, hl, perr_bind_ok, Except.ok.injEq, Prod.mk.injEq] at h
        obtain ⟨rfl, rfl⟩ := h
        have h1 := fixResult_idem r r' n1 hr
        have h2 := ih rs' n2 hl
        simp [fixList, h1, h2]

theorem fixRun1_other_idem (kvs : List (String × Json)) (v : Json) (r' : Json) (n : Nat)
    (harr : ∀ xs, v ≠ Json.arr xs)
    (hbranch : fixRun1 (.obj kvs) = do
      let m ← fixResultsOther v
      Except.ok (Json.obj kvs, m))
    (h : fixRun1 (.obj kvs) = .ok (r', n)) :
    fixRun1 r' = .ok (r', 0) := by
  rw [hbranch] at h
  cases ho : fixResultsOther v with
  | error e => rw [ho] at h; simp at h
  | ok m =>
    rw [ho] at h
    simp only [perr_bind_ok, Except.ok.injEq, Prod.mk.injEq] at h
    obtain ⟨rfl, rfl⟩ := h
    have hm0 : m = 0 := fixResultsOther_ok v harr m ho
    rw [hbranch, ho, hm0]
    rfl

theorem fixRun1_idem (run r' : Json) (n : Nat) (h : fixRun1 run = .ok (r', n)) :
    fixRun1 r' = .ok (r', 0) := by
  cases run with
  | null => simp [fixRun1] at h
  | bool b => simp [fixRun1] at h
  | num m => simp [fixRun1] at h
  | str s => simp [fixRun1] at h
  | arr xs => simp [fixRun1] at h
  | obj kvs =>
    cases hl : lookupKey kvs "results" with
    | none =>
      simp only [fixRun1, hl, Option.getD_none, fixList, perr_bind_ok,
        Except.ok.injEq, Prod.mk.injEq] at h
      obtain ⟨rfl, rfl⟩ := h
      have e1 := updEntries_of_lookup_none "results" (fun _ => Json.arr []) kvs hl
      rw [e1]
      simp [fixRun1, hl, fixList, e1]
    | some v =>
      cases v with
      | arr xs =>
        cases hfl : fixList xs with
        | error e => simp [fixRun1, hl, hfl] at h
        | ok q =>
          obtain ⟨xs', m⟩ := q
          simp only [fixRun1, hl, Option.getD_some, hfl, perr_bind_ok,
            Except.ok.injEq, Prod.mk.injEq] at h
          obtain ⟨rfl, rfl⟩ := h
          have h2 := fixList_idem xs xs' m hfl
          have hlook : lookupKey (updEntries "results" (fun _ => Json.arr xs') kvs)
              "results" = some (Json.arr xs') := by
            rw [lookupKey_updEntries, hl]
            rfl
          simp [fixRun1, hlook, h2, updEntries_updEntries]
      | null =>
        exact fixRun1_other_idem kvs Json.null r' n (fun xs hx => Json.noConfusion hx)
          (by simp [fixRun1, hl]) h
      | bool b =>
        exact fixRun1_other_idem kvs (Json.bool b) r' n (fun xs hx => Json.noConfusion hx)
          (by simp [fixRun1, hl]) h
      | num m =>
        exact fixRun1_other_idem kvs (Json.num m) r' n (fun xs hx => Json.noConfusion hx)
          (by simp [fixRun1, hl]) h
      | str s =>
        exact fixRun1_other_idem kvs (Json.str s) r' n (fun xs hx => Json.noConfusion hx)
          (by simp [fixRun1, hl]) h
      | obj kvs2 =>
        exact fixRun1_other_idem kvs (Json.obj kvs2) r' n (fun xs hx => Json.noConfusion hx)
          (by simp [fixRun1, hl]) h

theorem fixRuns_idem (rs : List Json) :
    ∀ rs' n, fixRuns rs = .ok (rs', n) → fixRuns rs' = .ok (rs', 0) := by
  induction rs with
  | nil =>
    intro rs' n h
    simp only [fixRuns, Except.ok.injEq, Prod.mk.injEq] at h
    obtain ⟨rfl, rfl⟩ := h
    rfl
  | cons r rest ih =>
    intro rs' n h
    cases hr : fixRun1 r with
    | error e => simp [fixRuns, hr] at h
    | ok p =>
      obtain ⟨r', n1⟩ := p
      cases hl : fixRuns rest with
      | error e => simp [fixRuns, hr, hl] at h
      | ok q' =>
        obtain ⟨rest', n2⟩ := q'
        simp only [fixRuns, hr, hl, perr_bind_ok, Except.ok.injEq, Prod.mk.injEq] at h
        obtain ⟨rfl, rfl⟩ := h
        have h1 := fixRun1_idem r r' n1 hr
        have h2 := ih rest' n2 hl
        simp [fixRuns, h1, h2]

theorem fixData_other_idem (kvs : List (String × Json)) (v : Json) (d' : Json) (n : Nat)
    (harr : ∀ xs, v ≠ Json.arr xs)
    (hbranch : fixData (.obj kvs) = do
      let m ← fixRunsOther v
      Except.ok (Json.obj kvs, m))
    (h : fixData (.obj kvs) = .ok (d', n)) :
    fixData d' = .ok (d', 0) := by
  rw [hbranch] at h
  cases ho : fixRunsOther v with
  | error e => rw [ho] at h; simp at h
  | ok m =>
    rw [ho] at h
    simp only [perr_bind_ok, Except.ok.injEq, Prod.mk.injEq] at h
    obtain ⟨rfl, rfl⟩ := h
    have hm0 : m = 0 := fixRunsOther_ok v harr m ho
    rw [hbranch, ho, hm0]
    rfl

theorem fixData_idem (data d' : Json) (n : Nat) (h : fixData data = .ok (d', n)) :
    fixData d' = .ok (d', 0) := by
  cases data with
  | null => simp [fixData] at h
  | bool b => simp [fixData] at h
  | num m => simp [fixData] at h
  | str s => simp [fixData] at h
  | arr xs => simp [fixData] at h
  | obj kvs =>
    cases hl : lookupKey kvs "runs" with
    | none =>
      simp only [fixData, hl, Option.getD_none, fixRuns, perr_bind_ok,
        Except.ok.injEq, Prod.mk.injEq] at h
      obtain ⟨rfl, rfl⟩ := h
      have e1 := updEntries_of_lookup_none "runs" (fun _ => Json.arr []) kvs hl
      rw [e1]
      simp [fixData, hl, fixRuns, e1]
    | some v =>
      cases v with
      | arr rs =>
        cases hfl : fixRuns rs with
        | error e => simp [fixData, hl, hfl] at h
        | ok q =>
          obtain ⟨rs', m⟩ := q
          simp only [fixData, hl, Option.getD_some, hfl, perr_bind_ok,
            Except.ok.injEq, Prod.mk.injEq] at h
          obtain ⟨rfl, rfl⟩ := h
          have h2 := fixRuns_idem rs rs' m hfl
          have hlook : lookupKey (updEntries "runs" (fun _ => Json.arr rs') kvs)
              "runs" = some (Json.arr rs') := by
            rw [lookupKey_updEntries, hl]
            rfl
          simp [fixData, hlook, h2, updEntries_updEntries]
      | null =>
        exact fixData_other_idem kvs Json.null d' n (fun xs hx => Json.noConfusion hx)
          (by simp [fixData, hl]) h
      | bool b =>
        exact fixData_other_idem kvs (Json.bool b) d' n (fun xs hx => Json.noConfusion hx)
          (by simp [fixData, hl]) h
      | num m =>
        exact fixData_other_idem kvs (Json.num m) d' n (fun xs hx => Json.noConfusion hx)
          (by simp [fixData, hl]) h
      | str s =>
        exact fixData_other_idem kvs (Json.str s) d' n (fun xs hx => Json.noConfusion hx)
          (by simp [fixData, hl]) h
      | obj kvs2 =>
        exact fixData_other_idem kvs (Json.obj kvs2) d' n (fun xs hx => Json.noConfusion hx)
          (by simp [fixData, hl]) h

/-! ### Frame lemmas: the spec transformation touches nothing else -/

theorem entriesExcept_specFix (data : Json) :
    entriesExcept (specFix data) "runs" = entriesExcept data "runs" := by
  cases data with
  | obj kvs => simp [specFix, entriesExcept, filter_updEntries]
  | null => rfl
  | bool b => rfl
  | num m => rfl
  | str s => rfl
  | arr xs => rfl

theorem entriesExcept_specFixRun (run : Json) :
    entriesExcept (specFixRun run) "results" = entriesExcept run "results" := by
  cases run with
  | obj kvs => simp [specFixRun, entriesExcept, filter_updEntries]
  | null => rfl
  | bool b => rfl
  | num m => rfl
  | str s => rfl
  | arr xs => rfl

theorem entriesExcept_specFixResult (r : Json) :
    entriesExcept (specFixResult r) "fixes" = entriesExcept r "fixes" := by
  cases r with
  | obj kvs => simp [specFixResult, entriesExcept, List.filter_filter]
  | null => rfl
  | bool b => rfl
  | num m => rfl
  | str s => rfl
  | arr xs => rfl

theorem runsArr_specFix (data : Json) :
    runsArr (specFix data) = (runsArr data).map specFixRun := by
  cases data with
  | obj kvs =>
    simp only [specFix, runsArr, lookupKey_updEntries]
    cases hl : lookupKey kvs "runs" with
    | none => simp
    | some v =>
      cases v with
      | arr rs => simp [fixRunsVal]
      | null => simp [fixRunsVal]
      | bool b => simp [fixRunsVal]
      | num m => simp [fixRunsVal]
      | str s => simp [fixRunsVal]
      | obj kvs2 => simp [fixRunsVal]
  | null => rfl
  | bool b => rfl
  | num m => rfl
  | str s => rfl
  | arr xs => rfl

theorem resultsArr_specFixRun (run : Json) :
    resultsArr (specFixRun run) = (resultsArr run).map specFixResult := by
  cases run with
  | obj kvs =>
    simp only [specFixRun, resultsArr, lookupKey_updEntries]
    cases hl : lookupKey kvs "results" with
    | none => simp
    | some v =>
      cases v with
      | arr xs => simp [fixResultsVal]
      | null => simp [fixResultsVal]
      | bool b => simp [fixResultsVal]
      | num m => simp [fixResultsVal]
      | str s => simp [fixResultsVal]
      | obj kvs2 => simp [fixResultsVal]
  | null => rfl
  | bool b => rfl
  | num m => rfl
  | str s => rfl
  | arr xs => rfl

/-! ### Concrete fixtures for witnesses -/

/-- A filesystem holding the worked example at the script's input path. -/
def exampleFS : FS :=
  fun p => if p = "gosec-raw.sarif" then some (.jsonDoc exampleInput) else none

/-- A filesystem whose input file does not parse as JSON. -/
def badFS : FS :=
  fun p => if p = "gosec-raw.sarif" then some (.rawText "not json") else none

/-- An empty filesystem. -/
def emptyFS : FS := fun _ => none

/-- A document whose `runs` key holds `null`. -/
def nullRunsDoc : Json := .obj [("runs", Json.null)]

/-- A filesystem holding `nullRunsDoc` at the input path. -/
def nullRunsFS : FS :=
  fun p => if p = "gosec-raw.sarif" then some (.jsonDoc nullRunsDoc) else none

/-- A filesystem whose input file is a JSON array at top level. -/
def arrFS : FS :=
  fun p => if p = "gosec-raw.sarif" then some (.jsonDoc (.arr [])) else none

/-! ### The claims -/

/-- C1: for every parsed document of the spec's SARIF shape containing
`specCountFixes data` result objects with a `fixes` key, `fix_gosec_sarif`
writes a document with no result object carrying a `fixes` key, emits no
error message, and returns exactly that count (0 included). -/
theorem c1_removes_all_fixes_and_counts (fs : FS) (data : Json)
    (hs : SarifShaped data = true)
    (hf : fs "gosec-raw.sarif" = some (.jsonDoc data)) :
    ∃ d', fix_gosec_sarif fs "gosec-raw.sarif" "gosec.sarif" =
        ⟨fs.write "gosec.sarif" (.jsonDoc d'), [], .ok (specCountFixes data)⟩ ∧
      specCountFixes d' = 0 := by
  refine ⟨specFix data, ?_, specCountFixes_specFix data⟩
  simp [fix_gosec_sarif, procResult, tryLoad, hf, fixData_shaped data hs]

theorem c1_witness :
    SarifShaped exampleInput = true ∧
    (∃ d', fix_gosec_sarif exampleFS "gosec-raw.sarif" "gosec.sarif" =
        ⟨exampleFS.write "gosec.sarif" (.jsonDoc d'), [], .ok (specCountFixes exampleInput)⟩ ∧
      specCountFixes d' = 0) :=
  ⟨rfl, c1_removes_all_fixes_and_counts exampleFS exampleInput rfl rfl⟩

/-- C2: for every successfully processed document (with the duplicate-free
keys `json.load` guarantees), the output document is exactly `specFix` of the
input: every entry other than the immediate `fixes` key of the result
objects, and the order of all entries and sequences, is preserved. -/
theorem c2_preserves_everything_else (data d' : Json) (n : Nat)
    (hk : docKeysOK data = true) (h : fixData data = .ok (d', n)) :
    d' = specFix data :=
  (fixData_ok_spec data d' n hk h).1

theorem c2_witness :
    docKeysOK exampleInput = true ∧ exampleOutput = specFix exampleInput :=
  ⟨rfl, c2_preserves_everything_else exampleInput exampleOutput 1 rfl rfl⟩

/-- C3: when the input file is missing, the process exits with status 1
after the "not found" message naming the input file, and the filesystem —
including any existing output file — is left completely untouched. -/
theorem c3_missing_input_no_write (fs : FS)
    (h : fs "gosec-raw.sarif" = none) :
    mainFn fs = (1, fs, [Ev.inputNotFound]) := by
  simp [mainFn, h]

theorem c3_witness :
    mainFn emptyFS = (1, emptyFS, [Ev.inputNotFound]) :=
  c3_missing_input_no_write emptyFS rfl

/-- C4: whenever processing raises, `fix_gosec_sarif` re-raises the original
error; if the input file is readable it first copies it verbatim to the
output path (reporting the copy), otherwise it reports the distinct
copy-failure message and leaves the filesystem untouched; and the process
exits with status 1 in either case. -/
theorem c4_fallback_copy_and_reraise (fs : FS) (e : PErr)
    (h : procResult fs "gosec-raw.sarif" = .error e) :
    (fix_gosec_sarif fs "gosec-raw.sarif" "gosec.sarif").res = .error e ∧
    (∀ c, fs "gosec-raw.sarif" = some c →
      fix_gosec_sarif fs "gosec-raw.sarif" "gosec.sarif" =
        ⟨fs.write "gosec.sarif" c, [.errFixing, .copiedRaw], .error e⟩) ∧
    (fs "gosec-raw.sarif" = none →
      fix_gosec_sarif fs "gosec-raw.sarif" "gosec.sarif" =
        ⟨fs, [.errFixing, .copyFailed], .error e⟩) ∧
    (mainFn fs).1 = 1 := by
  refine ⟨?_, ?_, ?_, ?_⟩
  · cases hin : fs "gosec-raw.sarif" <;> simp [fix_gosec_sarif, h, hin]
  · intro c hin
    simp [fix_gosec_sarif, h, hin]
  · intro hin
    simp [fix_gosec_sarif, h, hin]
  · cases hin : fs "gosec-raw.sarif" <;> simp [mainFn, hin, fix_gosec_sarif, h]

theorem c4_witness :
    procResult badFS "gosec-raw.sarif" = .error .jsonDecodeError ∧
    (fix_gosec_sarif badFS "gosec-raw.sarif" "gosec.sarif").res =
      .error .jsonDecodeError ∧
    fix_gosec_sarif badFS "gosec-raw.sarif" "gosec.sarif" =
      ⟨badFS.write "gosec.sarif" (.rawText "not json"),
        [.errFixing, .copiedRaw], .error .jsonDecodeError⟩ ∧
    fix_gosec_sarif emptyFS "gosec-raw.sarif" "gosec.sarif" =
      ⟨emptyFS, [.errFixing, .copyFailed], .error .fileNotFound⟩ ∧
    (mainFn badFS).1 = 1 :=
  ⟨rfl, (c4_fallback_copy_and_reraise badFS .jsonDecodeError rfl).1,
    (c4_fallback_copy_and_reraise badFS .jsonDecodeError rfl).2.1 _ rfl,
    (c4_fallback_copy_and_reraise emptyFS .fileNotFound rfl).2.2.1 rfl,
    (c4_fallback_copy_and_reraise badFS .jsonDecodeError rfl).2.2.2⟩

/-- C5: an absent `runs` key, or an absent `results` key on a run object, is
treated as an empty sequence: processing succeeds, the document is returned
unchanged at that level, and only actually-present result objects are
counted (0 when nothing is present). -/
theorem c5_absent_keys_default_empty :
    (∀ kvs, lookupKey kvs "runs" = none → fixData (.obj kvs) = .ok (.obj kvs, 0)) ∧
    (∀ kvs, lookupKey kvs "results" = none → fixRun1 (.obj kvs) = .ok (.obj kvs, 0)) := by
  constructor
  · intro kvs hl
    have e1 := updEntries_of_lookup_none "runs" (fun _ => Json.arr []) kvs hl
    simp [fixData, hl, fixRuns, e1]
  · intro kvs hl
    have e1 := updEntries_of_lookup_none "results" (fun _ => Json.arr []) kvs hl
    simp [fixRun1, hl, fixList, e1]

theorem c5_witness :
    fixData (.obj [("version", .str "2.1.0")]) =
      .ok (.obj [("version", .str "2.1.0")], 0) ∧
    fixRun1 (.obj [("tool", .str "gosec")]) =
      .ok (.obj [("tool", .str "gosec")], 0) :=
  ⟨c5_absent_keys_default_empty.1 [("version", .str "2.1.0")] rfl,
    c5_absent_keys_default_empty.2 [("tool", .str "gosec")] rfl⟩

/-- C6: the fixer is idempotent — reprocessing the output of a successful
run returns that output unchanged with a count of 0. -/
theorem c6_idempotent (data d' : Json) (n : Nat)
    (h : fixData data = .ok (d', n)) :
    fixData d' = .ok (d', 0) :=
  fixData_idem data d' n h

theorem c6_witness : fixData exampleOutput = .ok (exampleOutput, 0) :=
  c6_idempotent exampleInput exampleOutput 1 rfl

/-- C7: the spec's worked example — one `fixes` key is removed, the reported
count is 1, and exactly the expected document is written to the output. -/
theorem c7_worked_example :
    fixData exampleInput = .ok (exampleOutput, 1) ∧
    (fix_gosec_sarif exampleFS "gosec-raw.sarif" "gosec.sarif").res = .ok 1 ∧
    (fix_gosec_sarif exampleFS "gosec-raw.sarif" "gosec.sarif").fs "gosec.sarif" =
      some (.jsonDoc exampleOutput) :=
  ⟨rfl, rfl, rfl⟩

/-- C8 counterexample: the claim asserts that every document whose `runs`
value is present but not a sequence fails processing; but for the document
`{"runs": {}}` — whose `runs` value is an object, not a sequence — the code
iterates the (empty) dict's keys and succeeds with count 0, writing the
document unchanged. -/
theorem c8_counterexample :
    fixData (.obj [("runs", .obj [])]) = .ok (.obj [("runs", .obj [])], 0) := rfl

/-- C8 (amended): a present `runs` value — or a present `results` value on a
run — that is null, a boolean, or a number (not iterable at all) makes
processing raise `TypeError`, handled as an ordinary processing failure: the
raw input is copied to the output and the process exits with status 1, with
no distinct error kind.  (Present strings and objects, though not sequences,
are iterated element-wise and can succeed, e.g. `{"runs": {}}`.) -/
theorem c8_non_iterable_values_fail :
    (∀ kvs v, lookupKey kvs "runs" = some v → nonIterable v = true →
      fixData (.obj kvs) = .error .typeError) ∧
    (∀ kvs v, lookupKey kvs "results" = some v → nonIterable v = true →
      fixRun1 (.obj kvs) = .error .typeError) ∧
    (∀ fs data e, fs "gosec-raw.sarif" = some (.jsonDoc data) →
      fixData data = .error e →
      mainFn fs = (1, fs.write "gosec.sarif" (.jsonDoc data),
        [Ev.errFixing, Ev.copiedRaw, Ev.failMsg])) := by
  refine ⟨?_, ?_, ?_⟩
  · intro kvs v hl hni
    cases v with
    | null => simp [fixData, hl, fixRunsOther, pyIter]
    | bool b => simp [fixData, hl, fixRunsOther, pyIter]
    | num m => simp [fixData, hl, fixRunsOther, pyIter]
    | str s => simp [nonIterable] at hni
    | arr xs => simp [nonIterable] at hni
    | obj kvs2 => simp [nonIterable] at hni
  · intro kvs v hl hni
    cases v with
    | null => simp [fixRun1, hl, fixResultsOther, pyIter]
    | bool b => simp [fixRun1, hl, fixResultsOther, pyIter]
    | num m => simp [fixRun1, hl, fixResultsOther, pyIter]
    | str s => simp [nonIterable] at hni
    | arr xs => simp [nonIterable] at hni
    | obj kvs2 => simp [nonIterable] at hni
  · intro fs data e hf he
    simp [mainFn, hf, fix_gosec_sarif, procResult, tryLoad, he]

theorem c8_witness :
    fixData nullRunsDoc = .error .typeError ∧
    fixRun1 (.obj [("results", .num 3)]) = .error .typeError ∧
    mainFn nullRunsFS = (1, nullRunsFS.write "gosec.sarif" (.jsonDoc nullRunsDoc),
      [Ev.errFixing, Ev.copiedRaw, Ev.failMsg]) :=
  ⟨c8_non_iterable_values_fail.1 [("runs", Json.null)] Json.null rfl rfl,
    c8_non_iterable_values_fail.2.1 [("results", .num 3)] (.num 3) rfl rfl,
    c8_non_iterable_values_fail.2.2 nullRunsFS nullRunsDoc .typeError rfl
      (c8_non_iterable_values_fail.1 [("runs", Json.null)] Json.null rfl rfl)⟩

/-- C9: a `fixes` key anywhere except immediately on a result object — at
the top level, on a run object, or nested inside a result's values — is
preserved unchanged, and the count counts only the immediate `fixes` keys of
the elements of `runs[*].results[*]`. -/
theorem c9_only_result_level_fixes_touched (data d' : Json) (n : Nat)
    (hk : docKeysOK data = true) (h : fixData data = .ok (d', n)) :
    n = specCountFixes data ∧
    entriesExcept d' "runs" = entriesExcept data "runs" ∧
    List.Forall₂ (fun run' run =>
      entriesExcept run' "results" = entriesExcept run "results" ∧
      List.Forall₂ (fun r' r => entriesExcept r' "fixes" = entriesExcept r "fixes")
        (resultsArr run') (resultsArr run))
      (runsArr d') (runsArr data) := by
  obtain ⟨hd, hn⟩ := fixData_ok_spec data d' n hk h
  subst hd
  refine ⟨hn, entriesExcept_specFix data, ?_⟩
  rw [runsArr_specFix]
  refine forall2_map_self _ _ ?_
  intro run _
  refine ⟨entriesExcept_specFixRun run, ?_⟩
  rw [resultsArr_specFixRun]
  refine forall2_map_self _ _ ?_
  intro r _
  exact entriesExcept_specFixResult r

/-- A document with `fixes` keys at the top level, on a run object, and
nested inside a result's `properties`, beside one genuine result-level
`fixes` key. -/
def strayFixesDoc : Json :=
  .obj [("fixes", .str "top"),
    ("runs", .arr [
      .obj [("fixes", .str "run"),
            ("results", .arr [
              .obj [("ruleId", .str "G101"),
                    ("properties", .obj [("fixes", .str "nested")]),
                    ("fixes", .arr [])]])]])]

/-- `strayFixesDoc` after one pass: only the result-level `fixes` is gone. -/
def strayFixesOut : Json :=
  .obj [("fixes", .str "top"),
    ("runs", .arr [
      .obj [("fixes", .str "run"),
            ("results", .arr [
              .obj [("ruleId", .str "G101"),
                    ("properties", .obj [("fixes", .str "nested")])]])]])]

theorem c9_witness :
    docKeysOK strayFixesDoc = true ∧
    fixData strayFixesDoc = .ok (strayFixesOut, 1) ∧
    (1 = specCountFixes strayFixesDoc ∧
      entriesExcept strayFixesOut "runs" = entriesExcept strayFixesDoc "runs" ∧
      List.Forall₂ (fun run' run =>
        entriesExcept run' "results" = entriesExcept run "results" ∧
        List.Forall₂ (fun r' r => entriesExcept r' "fixes" = entriesExcept r "fixes")
          (resultsArr run') (resultsArr run))
        (runsArr strayFixesOut) (runsArr strayFixesDoc)) :=
  ⟨rfl, rfl, c9_only_result_level_fixes_touched strayFixesDoc strayFixesOut 1 rfl rfl⟩

/-- C10: a valid JSON input whose top-level value is not an object (array,
string, number, boolean or null) makes processing raise `AttributeError` at
`data.get`, taking the fallback-copy path and exiting with status 1 — it
does not succeed with count 0. -/
theorem c10_non_object_top_level_fails :
    (∀ v, isObj v = false → fixData v = .error .attributeError) ∧
    (∀ fs v, fs "gosec-raw.sarif" = some (.jsonDoc v) → isObj v = false →
      mainFn fs = (1, fs.write "gosec.sarif" (.jsonDoc v),
        [Ev.errFixing, Ev.copiedRaw, Ev.failMsg])) := by
  have h1 : ∀ v, isObj v = false → fixData v = .error .attributeError := by
    intro v hv
    cases v with
    | obj kvs => simp [isObj] at hv
    | null => rfl
    | bool b => rfl
    | num m => rfl
    | str s => rfl
    | arr xs => rfl
  refine ⟨h1, ?_⟩
  intro fs v hf hv
  simp [mainFn, hf, fix_gosec_sarif, procResult, tryLoad, h1 v hv]

theorem c10_witness :
    fixData (.arr []) = .error .attributeError ∧
    mainFn arrFS = (1, arrFS.write "gosec.sarif" (.jsonDoc (.arr [])),
      [Ev.errFixing, Ev.copiedRaw, Ev.failMsg]) :=
  ⟨c10_non_object_top_level_fails.1 (.arr []) rfl,
    c10_non_object_top_level_fails.2 arrFS (.arr []) rfl rfl⟩
